import Mathlib

/-!
Verification of the McCabe-Thiele stage-counting staircase and of the
tray-hydraulics operating-envelope selection of this repository.

The stepping loop is embedded from the staircase computation in
"plot_graph" (app 图解法求理论板数): rationals stand for the Python
floats, the cubic inverse interpolant "f_curve_y_to_x" is an arbitrary
function parameter g, and the "while count < max_steps" loop becomes
fuel recursion, with the fuel instantiated at the hard-coded cap 100.

The envelope selection is embedded from step 3 of "plot_diagram"
(app 塔板负荷性能图): sorting of the candidate intersections by vapor
rate, the validity filter, the extraction of the extreme valid points
and the operating-flexibility ratio.
-/

/-- Result of the staircase computation: the loop counter "count" and the
staircase vertices, i.e. the lists "steps_x"/"steps_y" zipped. -/
structure MTResult where
  count : ℕ
  steps : List (ℚ × ℚ)

/-- Evaluation of "np.poly1d([k, b])": the operating line y = k * x + b. -/
def lineF (k b x : ℚ) : ℚ := k * x + b

/-- Source line "x_intersect = (b_S - b_R) / (k_R - k_S) if (k_R != k_S) else x_F". -/
def xIntersect (kR bR kS bS xF : ℚ) : ℚ :=
  if kR ≠ kS then (bS - bR) / (kR - kS) else xF

/-- The vertical (operating-line) reflection of one loop iteration: from a
vapor composition y, read "next_x = g(y)" and reflect off the rectifying
line when "current_x > x_intersect", else off the stripping line. -/
def stepY (g : ℚ → ℚ) (kR bR kS bS xsplit y : ℚ) : ℚ :=
  if g y > xsplit then lineF kR bR (g y) else lineF kS bS (g y)

/-- The loop "while count < max_steps" of the staircase computation, with
fuel standing for the remaining iteration budget "max_steps - count".
Each iteration appends the horizontal vertex "(next_x, current_y)";
when "next_x < x_W" it appends the diagonal vertex "(next_x, next_x)"
and breaks without incrementing "count"; otherwise it appends the
vertical vertex "(next_x, next_y)" and increments "count". -/
def mtLoop (g : ℚ → ℚ) (kR bR kS bS xsplit xW : ℚ) : ℕ → ℚ → ℕ × List (ℚ × ℚ)
  | 0, _ => (0, [])
  | fuel + 1, y =>
    let nx := g y
    if nx < xW then
      (0, [(nx, y), (nx, nx)])
    else
      let ny := stepY g kR bR kS bS xsplit y
      let r := mtLoop g kR bR kS bS xsplit xW fuel ny
      (r.1 + 1, (nx, y) :: (nx, ny) :: r.2)

/-- The staircase computation of "plot_graph": start at (x_D, x_D) on the
diagonal and run the stepping loop. The source hard-codes
"max_steps = 100"; the cap is kept as the parameter maxStages. -/
def countStages (g : ℚ → ℚ) (kR bR kS bS xD xF xW : ℚ) (maxStages : ℕ) : MTResult :=
  let r := mtLoop g kR bR kS bS (xIntersect kR bR kS bS xF) xW maxStages xD
  ⟨r.1, (xD, xD) :: r.2⟩

/-- Trajectory of the loop variable "current_y": the vapor composition
entering each iteration. -/
def yseq (g : ℚ → ℚ) (kR bR kS bS xsplit y0 : ℚ) : ℕ → ℚ
  | 0 => y0
  | n + 1 => stepY g kR bR kS bS xsplit (yseq g kR bR kS bS xsplit y0 n)

/-- Big-step relational rendering of the stepping "while" loop, one
constructor per way an iteration can proceed: fuel exhausted, terminating
read ("next_x < x_W", break), or a full read-reflect cycle. -/
inductive MTRun (g : ℚ → ℚ) (kR bR kS bS xsplit xW : ℚ) : ℕ → ℚ → ℕ × List (ℚ × ℚ) → Prop
  | exhaust (y : ℚ) : MTRun g kR bR kS bS xsplit xW 0 y (0, [])
  | stop (fuel : ℕ) (y : ℚ) (h : g y < xW) :
      MTRun g kR bR kS bS xsplit xW (fuel + 1) y (0, [(g y, y), (g y, g y)])
  | cycle (fuel : ℕ) (y : ℚ) (h : ¬ g y < xW) (c : ℕ) (l : List (ℚ × ℚ))
      (hrec : MTRun g kR bR kS bS xsplit xW fuel (stepY g kR bR kS bS xsplit y) (c, l)) :
      MTRun g kR bR kS bS xsplit xW (fuel + 1) y
        (c + 1, (g y, y) :: (g y, stepY g kR bR kS bS xsplit y) :: l)

/-- Alternating staircase continuation: after a vertex p, the list goes on
with a horizontal vertex (same y as p) when the flag is true, resp. a
vertical or diagonal-drop vertex (same x as p) when the flag is false. -/
inductive Alt : Bool → ℚ × ℚ → List (ℚ × ℚ) → Prop
  | nil (b : Bool) (p : ℚ × ℚ) : Alt b p []
  | horiz (p q : ℚ × ℚ) (l : List (ℚ × ℚ)) (h : q.2 = p.2) (ht : Alt false q l) :
      Alt true p (q :: l)
  | vert (p q : ℚ × ℚ) (l : List (ℚ × ℚ)) (h : q.1 = p.1) (ht : Alt true q l) :
      Alt false p (q :: l)

/-- The claim wording "agree in exactly one coordinate" for two
consecutive staircase vertices. -/
def sharesExactlyOne (p q : ℚ × ℚ) : Prop :=
  (p.1 = q.1 ∧ p.2 ≠ q.2) ∨ (p.1 ≠ q.1 ∧ p.2 = q.2)

/-- Piecewise-linear strictly increasing equilibrium curve that jumps to
0.96 already at x = 0.05: a counterexample input whose single equilibrium
read at y = x_D lands below x_W. -/
def cexF (x : ℚ) : ℚ := if x ≤ 1/20 then (96/5) * x else 24/25 + (x - 1/20) * (4/95)

/-- The inverse of cexF, playing the role of the inverse interpolant
"f_curve_y_to_x" for that counterexample curve. -/
def cexG (y : ℚ) : ℚ := if y ≤ 24/25 then (5/96) * y else 1/20 + (y - 24/25) * (95/4)

/-- Hypotheses of the spec's termination property, following its words:
compositions ordered inside [0,1], f the forward equilibrium interpolant
with inverse g (the function the stepping loop reads), and both operating
lines strictly below f everywhere between x_W and x_D. -/
def BelowCurveInputs (f g : ℚ → ℚ) (kR bR kS bS xD xF xW : ℚ) : Prop :=
  StrictMono f ∧ (∀ x, g (f x) = x) ∧
  0 ≤ xW ∧ xW < xF ∧ xF < xD ∧ xD ≤ 1 ∧
  ∀ x, xW ≤ x → x ≤ xD → lineF kR bR x < f x ∧ lineF kS bS x < f x

/-- A candidate intersection record, the dictionary
"{'Ls': ..., 'Vs': ..., 'Source': ...}" of "plot_diagram". -/
structure IPoint where
  Ls : ℚ
  Vs : ℚ
  Source : String

instance : Inhabited IPoint := ⟨⟨0, 0, "N/A"⟩⟩

/-- The comparison tolerance "epsilon = 1e-6" of "plot_diagram". -/
def hydroEps : ℚ := 1 / 1000000

/-- The "valid_points" test of "plot_diagram" step 3: the vapor rate lies
between the weeping bound and the lower of the mist and flood bounds, and
the liquid load lies between Ls_min and Ls_max, all up to epsilon. -/
def validIntersection (weeping mist flood : ℚ → ℚ) (lsMin lsMax : ℚ) (p : IPoint) : Prop :=
  (weeping p.Ls - hydroEps ≤ p.Vs ∧ p.Vs ≤ min (mist p.Ls) (flood p.Ls) + hydroEps) ∧
  (lsMin - hydroEps ≤ p.Ls ∧ p.Ls ≤ lsMax + hydroEps)

instance validIntersection.instDecidable (weeping mist flood : ℚ → ℚ) (lsMin lsMax : ℚ)
    (p : IPoint) : Decidable (validIntersection weeping mist flood lsMin lsMax p) := by
  unfold validIntersection; infer_instance

/-- Outcome record of step 3 of "plot_diagram": the selected envelope
extremes and the operating-flexibility ratio "E_op". -/
structure HydroResult where
  VsMinVal : ℚ
  LsMinOp : ℚ
  VsMinSource : String
  VsMaxVal : ℚ
  LsMaxOp : ℚ
  VsMaxSource : String
  Eop : ℚ

/-- Step 3 of "plot_diagram": sort the candidate intersections by vapor
rate, filter them through the validity test, and when at least two valid
points remain take the extremes of the re-sorted valid list; finally
"E_op = Vs_max_val / Vs_min_val if Vs_min_val > 0 else 0.0". -/
def selectEnvelope (weeping mist flood : ℚ → ℚ) (lsMin lsMax : ℚ)
    (pts : List IPoint) : HydroResult :=
  let sortedAll := pts.mergeSort fun a b => decide (a.Vs ≤ b.Vs)
  let valid := sortedAll.filter fun p =>
    decide (validIntersection weeping mist flood lsMin lsMax p)
  let base : HydroResult :=
    if 2 ≤ valid.length then
      let vsorted := valid.mergeSort fun a b => decide (a.Vs ≤ b.Vs)
      { VsMinVal := vsorted.headI.Vs, LsMinOp := vsorted.headI.Ls,
        VsMinSource := vsorted.headI.Source,
        VsMaxVal := vsorted.getLastI.Vs, LsMaxOp := vsorted.getLastI.Ls,
        VsMaxSource := vsorted.getLastI.Source, Eop := 0 }
    else
      { VsMinVal := 0, LsMinOp := 0, VsMinSource := "N/A",
        VsMaxVal := 0, LsMaxOp := 0, VsMaxSource := "N/A", Eop := 0 }
  { base with Eop := if base.VsMinVal > 0 then base.VsMaxVal / base.VsMinVal else 0 }

section LoopLemmas

variable (g : ℚ → ℚ) (kR bR kS bS xsplit xW : ℚ)

lemma yseq_shift (y0 : ℚ) (n : ℕ) :
    yseq g kR bR kS bS xsplit (stepY g kR bR kS bS xsplit y0) n =
      yseq g kR bR kS bS xsplit y0 (n + 1) := by
  induction n with
  | zero => rfl
  | succ n ih => simp only [yseq, ih]

lemma mtLoop_count_le (fuel : ℕ) : ∀ y : ℚ,
    (mtLoop g kR bR kS bS xsplit xW fuel y).1 ≤ fuel := by
  induction fuel with
  | zero => intro y; simp [mtLoop]
  | succ fuel ih =>
    intro y
    by_cases h : g y < xW
    · simp [mtLoop, h]
    · simpa [mtLoop, h] using ih (stepY g kR bR kS bS xsplit y)

lemma mtLoop_stop_zero {y : ℚ} (h : g y < xW) (fuel : ℕ) :
    mtLoop g kR bR kS bS xsplit xW (fuel + 1) y = (0, [(g y, y), (g y, g y)]) := by
  simp [mtLoop, h]

lemma mtLoop_cycle_unfold {y : ℚ} (h : ¬ g y < xW) (fuel : ℕ) :
    mtLoop g kR bR kS bS xsplit xW (fuel + 1) y =
      ((mtLoop g kR bR kS bS xsplit xW fuel (stepY g kR bR kS bS xsplit y)).1 + 1,
        (g y, y) :: (g y, stepY g kR bR kS bS xsplit y) ::
          (mtLoop g kR bR kS bS xsplit xW fuel (stepY g kR bR kS bS xsplit y)).2) := by
  simp [mtLoop, h]

lemma mtLoop_count_of_no_stop : ∀ (fuel : ℕ) (y : ℚ),
    (∀ i < fuel, ¬ g (yseq g kR bR kS bS xsplit y i) < xW) →
    (mtLoop g kR bR kS bS xsplit xW fuel y).1 = fuel := by
  intro fuel
  induction fuel with
  | zero => intro y _; simp [mtLoop]
  | succ fuel ih =>
    intro y h
    have h0 : ¬ g y < xW := h 0 (Nat.succ_pos fuel)
    have hrec := ih (stepY g kR bR kS bS xsplit y) (fun i hi => by
      rw [yseq_shift]
      exact h (i + 1) (Nat.succ_lt_succ hi))
    simp [mtLoop, h0, hrec]

lemma mtLoop_stop : ∀ (n : ℕ) {fuel : ℕ} (y : ℚ), n < fuel →
    (∀ i < n, ¬ g (yseq g kR bR kS bS xsplit y i) < xW) →
    g (yseq g kR bR kS bS xsplit y n) < xW →
    (mtLoop g kR bR kS bS xsplit xW fuel y).1 = n ∧
    ∃ p, (mtLoop g kR bR kS bS xsplit xW fuel y).2 =
      p ++ [(g (yseq g kR bR kS bS xsplit y n), yseq g kR bR kS bS xsplit y n),
            (g (yseq g kR bR kS bS xsplit y n), g (yseq g kR bR kS bS xsplit y n))] := by
  intro n
  induction n with
  | zero =>
    intro fuel y hn _ hstop
    obtain ⟨f, rfl⟩ : ∃ f, fuel = f + 1 := ⟨fuel - 1, (Nat.succ_pred_eq_of_pos hn).symm⟩
    have hy : g y < xW := hstop
    rw [mtLoop_stop_zero g kR bR kS bS xsplit xW hy]
    exact ⟨rfl, [], rfl⟩
  | succ n ih =>
    intro fuel y hn hbefore hstop
    obtain ⟨f, rfl⟩ : ∃ f, fuel = f + 1 :=
      ⟨fuel - 1, (Nat.succ_pred_eq_of_pos (Nat.lt_of_le_of_lt (Nat.zero_le _) hn)).symm⟩
    have h0 : ¬ g y < xW := hbefore 0 (Nat.succ_pos n)
    have hshift : ∀ (m : ℕ),
        yseq g kR bR kS bS xsplit (stepY g kR bR kS bS xsplit y) m =
          yseq g kR bR kS bS xsplit y (m + 1) := yseq_shift g kR bR kS bS xsplit y
    have hrec := ih (stepY g kR bR kS bS xsplit y) (Nat.lt_of_succ_lt_succ hn)
      (fun i hi => by rw [hshift]; exact hbefore (i + 1) (Nat.succ_lt_succ hi))
      (by rw [hshift]; exact hstop)
    obtain ⟨hc, p, hp⟩ := hrec
    refine ⟨?_, (g y, y) :: (g y, stepY g kR bR kS bS xsplit y) ::
      p, ?_⟩ <;> simp [mtLoop, h0, hc, hp, hshift]

lemma mtLoop_count_lt_iff (fuel : ℕ) (y : ℚ) :
    (mtLoop g kR bR kS bS xsplit xW fuel y).1 < fuel ↔
      ∃ n < fuel, g (yseq g kR bR kS bS xsplit y n) < xW := by
  constructor
  · intro hlt
    by_contra hno
    push_neg at hno
    have := mtLoop_count_of_no_stop g kR bR kS bS xsplit xW fuel y
      (fun i hi => not_lt.mpr (hno i hi))
    omega
  · rintro ⟨n, hn, hPn⟩
    have hex : ∃ m, g (yseq g kR bR kS bS xsplit y m) < xW := ⟨n, hPn⟩
    have hfind := Nat.find_spec hex
    have hmin : ∀ i < Nat.find hex, ¬ g (yseq g kR bR kS bS xsplit y i) < xW :=
      fun i hi => Nat.find_min hex hi
    have hle : Nat.find hex ≤ n := Nat.find_min' hex hPn
    have hflt : Nat.find hex < fuel := Nat.lt_of_le_of_lt hle hn
    have := (mtLoop_stop g kR bR kS bS xsplit xW (Nat.find hex) y hflt hmin hfind).1
    omega

lemma mtLoop_ne_nil (fuel : ℕ) (y : ℚ) (hpos : 0 < fuel) :
    (mtLoop g kR bR kS bS xsplit xW fuel y).2 ≠ [] := by
  obtain ⟨f, rfl⟩ : ∃ f, fuel = f + 1 := ⟨fuel - 1, (Nat.succ_pred_eq_of_pos hpos).symm⟩
  by_cases h : g y < xW <;> simp [mtLoop, h]

lemma mtLoop_getLast_exhaust : ∀ (fuel : ℕ) (y : ℚ), 0 < fuel →
    (∀ i < fuel, ¬ g (yseq g kR bR kS bS xsplit y i) < xW) →
    (mtLoop g kR bR kS bS xsplit xW fuel y).2.getLast? =
      some (g (yseq g kR bR kS bS xsplit y (fuel - 1)), yseq g kR bR kS bS xsplit y fuel) := by
  intro fuel
  induction fuel with
  | zero => intro y h; omega
  | succ fuel ih =>
    intro y _ hno
    have h0 : ¬ g y < xW := hno 0 (Nat.succ_pos fuel)
    have hshift : ∀ (m : ℕ),
        yseq g kR bR kS bS xsplit (stepY g kR bR kS bS xsplit y) m =
          yseq g kR bR kS bS xsplit y (m + 1) := yseq_shift g kR bR kS bS xsplit y
    rcases Nat.eq_zero_or_pos fuel with hf | hf
    · subst hf
      simp [mtLoop, h0, yseq]
    · have hrec := ih (stepY g kR bR kS bS xsplit y)
        hf (fun i hi => by rw [hshift]; exact hno (i + 1) (Nat.succ_lt_succ hi))
      have hne := mtLoop_ne_nil g kR bR kS bS xsplit xW fuel (stepY g kR bR kS bS xsplit y) hf
      obtain ⟨c, r', hcr⟩ :=
        List.exists_cons_of_ne_nil hne
      rw [hshift, hshift] at hrec
      have hf1 : fuel - 1 + 1 = fuel := Nat.succ_pred_eq_of_pos hf
      have hunf : mtLoop g kR bR kS bS xsplit xW (fuel + 1) y =
          ((mtLoop g kR bR kS bS xsplit xW fuel (stepY g kR bR kS bS xsplit y)).1 + 1,
            (g y, y) :: (g y, stepY g kR bR kS bS xsplit y) ::
              (mtLoop g kR bR kS bS xsplit xW fuel (stepY g kR bR kS bS xsplit y)).2) := by
        simp [mtLoop, h0]
      rw [hunf]
      simp only [hcr] at hrec ⊢
      simp only [List.getLast?_cons_cons] at hrec ⊢
      rw [hrec, hf1]
      simp

lemma countStages_getLast_exhaust (xD xF : ℚ) (maxStages : ℕ) (hpos : 0 < maxStages)
    (hno : ∀ i < maxStages,
      ¬ g (yseq g kR bR kS bS (xIntersect kR bR kS bS xF) xD i) < xW) :
    (countStages g kR bR kS bS xD xF xW maxStages).steps.getLast? =
      some (g (yseq g kR bR kS bS (xIntersect kR bR kS bS xF) xD (maxStages - 1)),
            yseq g kR bR kS bS (xIntersect kR bR kS bS xF) xD maxStages) := by
  have hlast := mtLoop_getLast_exhaust g kR bR kS bS (xIntersect kR bR kS bS xF) xW
    maxStages xD hpos hno
  have hne := mtLoop_ne_nil g kR bR kS bS (xIntersect kR bR kS bS xF) xW maxStages xD hpos
  obtain ⟨c, r', hcr⟩ := List.exists_cons_of_ne_nil hne
  show ((xD, xD) ::
    (mtLoop g kR bR kS bS (xIntersect kR bR kS bS xF) xW maxStages xD).2).getLast? = _
  rw [hcr] at hlast ⊢
  rw [List.getLast?_cons_cons, hlast]

lemma mtLoop_alt : ∀ (fuel : ℕ) (y : ℚ) (p : ℚ × ℚ), p.2 = y →
    Alt true p (mtLoop g kR bR kS bS xsplit xW fuel y).2 := by
  intro fuel
  induction fuel with
  | zero => intro y p _; exact Alt.nil true p
  | succ fuel ih =>
    intro y p hp
    by_cases h : g y < xW
    · rw [mtLoop_stop_zero g kR bR kS bS xsplit xW h fuel]
      exact Alt.horiz p (g y, y) _ hp.symm
        (Alt.vert (g y, y) (g y, g y) _ rfl (Alt.nil true (g y, g y)))
    · have hunf : (mtLoop g kR bR kS bS xsplit xW (fuel + 1) y).2 =
          (g y, y) :: (g y, stepY g kR bR kS bS xsplit y) ::
            (mtLoop g kR bR kS bS xsplit xW fuel (stepY g kR bR kS bS xsplit y)).2 := by
        simp [mtLoop, h]
      rw [hunf]
      exact Alt.horiz p (g y, y) _ hp.symm
        (Alt.vert (g y, y) (g y, stepY g kR bR kS bS xsplit y) _ rfl
          (ih (stepY g kR bR kS bS xsplit y) _ rfl))

lemma mtRun_mtLoop : ∀ (fuel : ℕ) (y : ℚ),
    MTRun g kR bR kS bS xsplit xW fuel y (mtLoop g kR bR kS bS xsplit xW fuel y) := by
  intro fuel
  induction fuel with
  | zero => intro y; exact MTRun.exhaust y
  | succ fuel ih =>
    intro y
    by_cases h : g y < xW
    · rw [mtLoop_stop_zero g kR bR kS bS xsplit xW h fuel]
      exact MTRun.stop fuel y h
    · have hunf : mtLoop g kR bR kS bS xsplit xW (fuel + 1) y =
          ((mtLoop g kR bR kS bS xsplit xW fuel (stepY g kR bR kS bS xsplit y)).1 + 1,
            (g y, y) :: (g y, stepY g kR bR kS bS xsplit y) ::
              (mtLoop g kR bR kS bS xsplit xW fuel (stepY g kR bR kS bS xsplit y)).2) := by
        simp [mtLoop, h]
      rw [hunf]
      exact MTRun.cycle fuel y h _ _ (ih (stepY g kR bR kS bS xsplit y))

end LoopLemmas

lemma pinch_yseq (i : ℕ) :
    yseq id 1 (-1/500) 1 (-1/500) (9/20) (19/20) i = 19/20 - (i : ℚ) / 500 := by
  induction i with
  | zero => norm_num [yseq]
  | succ i ih =>
    simp only [yseq, ih, stepY, lineF, id_eq]
    split_ifs <;> push_cast <;> ring

lemma pinch_no_stop : ∀ i < 100,
    ¬ id (yseq id 1 (-1/500) 1 (-1/500) (9/20) (19/20) i) < (1/20 : ℚ) := by
  intro i hi
  rw [pinch_yseq]
  have hle : (i : ℚ) ≤ 99 := by exact_mod_cast Nat.lt_succ_iff.mp hi
  simp only [id_eq, not_lt]
  have : (i : ℚ) / 500 ≤ 99 / 500 := by linarith
  linarith

lemma pinch_xsplit : xIntersect 1 (-1/500) 1 (-1/500) (9/20) = (9/20 : ℚ) := by
  simp [xIntersect]

lemma cexF_strictMono : StrictMono cexF := by
  intro a b hab
  simp only [cexF]
  split_ifs with h1 h2 h2
  · linarith
  · have hpos : (0:ℚ) < (b - 1/20) * (4/95) :=
      mul_pos (by linarith) (by norm_num)
    linarith
  · linarith
  · linarith

lemma cexG_cexF (x : ℚ) : cexG (cexF x) = x := by
  by_cases hx : x ≤ 1/20
  · have h96 : (96:ℚ)/5 * x ≤ 24/25 := by linarith
    simp only [cexF, if_pos hx, cexG, if_pos h96]
    ring
  · have hgt : ¬ (24/25 + (x - 1/20) * (4/95) ≤ (24:ℚ)/25) := by
      have hpos : (0:ℚ) < (x - 1/20) * (4/95) :=
        mul_pos (by linarith) (by norm_num)
      linarith
    simp only [cexF, if_neg hx, cexG, if_neg hgt]
    ring

lemma cex_lines_below (x : ℚ) (h1 : 1/20 ≤ x) (h2 : x ≤ 19/20) :
    lineF (53/100) (44/100) x < cexF x ∧ lineF (9/10) 0 x < cexF x := by
  have hnn : (0:ℚ) ≤ (x - 1/20) * (4/95) :=
    mul_nonneg (by linarith) (by norm_num)
  constructor <;> (simp only [cexF, lineF]; split_ifs with h <;> linarith)

lemma cexG_at_xD : cexG (19/20) < (1/20 : ℚ) := by
  norm_num [cexG]

lemma getLast?_cons_append_pair {α : Type} (a u v : α) (p : List α) :
    (a :: (p ++ [u, v])).getLast? = some v := by
  have h : a :: (p ++ [u, v]) = ((a :: p) ++ [u]) ++ [v] := by simp
  rw [h, List.getLast?_concat]

/-- C3: for every input the stepping loop performs at most maxStages
iterations, always terminates, and the returned stage count is at most
maxStages. -/
theorem countStages_count_le_maxStages (g : ℚ → ℚ) (kR bR kS bS xD xF xW : ℚ)
    (maxStages : ℕ) :
    (countStages g kR bR kS bS xD xF xW maxStages).count ≤ maxStages :=
  mtLoop_count_le g kR bR kS bS (xIntersect kR bR kS bS xF) xW maxStages xD

/-- C1 (amended): when the n-th equilibrium read is the first to fall below
x_W within the cap, the loop appends the horizontal vertex, then the final
diagonal vertex (x_next, x_next), and stops; the returned stage count
equals n, the number of full read-reflect cycles completed before the
terminating read: the terminating stage is not itself counted. -/
theorem countStages_terminating_read (g : ℚ → ℚ) (kR bR kS bS xD xF xW : ℚ)
    (maxStages n : ℕ) (hn : n < maxStages)
    (hbefore : ∀ i < n,
      ¬ g (yseq g kR bR kS bS (xIntersect kR bR kS bS xF) xD i) < xW)
    (hstop : g (yseq g kR bR kS bS (xIntersect kR bR kS bS xF) xD n) < xW) :
    (countStages g kR bR kS bS xD xF xW maxStages).count = n ∧
    ∃ p, (countStages g kR bR kS bS xD xF xW maxStages).steps =
      p ++ [(g (yseq g kR bR kS bS (xIntersect kR bR kS bS xF) xD n),
             yseq g kR bR kS bS (xIntersect kR bR kS bS xF) xD n),
            (g (yseq g kR bR kS bS (xIntersect kR bR kS bS xF) xD n),
             g (yseq g kR bR kS bS (xIntersect kR bR kS bS xF) xD n))] := by
  obtain ⟨hc, p, hp⟩ := mtLoop_stop g kR bR kS bS (xIntersect kR bR kS bS xF) xW n xD
    hn hbefore hstop
  refine ⟨hc, (xD, xD) :: p, ?_⟩
  show (xD, xD) :: (mtLoop g kR bR kS bS (xIntersect kR bR kS bS xF) xW maxStages xD).2 = _
  rw [hp]
  simp

/-- C1 witness: a concrete run that terminates on its very first read,
with zero completed cycles. -/
theorem countStages_terminating_read_witness :
    ((0:ℕ) < 100 ∧ ((0:ℚ) < 1/20)) ∧
    ((countStages (fun _ => 0) 1 0 1 0 (19/20) (9/20) (1/20) 100).count = 0 ∧
      ∃ p, (countStages (fun _ => 0) 1 0 1 0 (19/20) (9/20) (1/20) 100).steps =
        p ++ [((0:ℚ), (19:ℚ)/20), ((0:ℚ), (0:ℚ))]) := by
  refine ⟨⟨by norm_num, by norm_num⟩, ?_⟩
  exact countStages_terminating_read (fun _ => 0) 1 0 1 0 (19/20) (9/20) (1/20) 100 0
    (by norm_num) (fun i hi => absurd hi (Nat.not_lt_zero i)) (by norm_num [yseq])

/-- C1 counterexample: on a run whose first read terminates the loop, the
final two vertices are appended exactly as the claim says, but the
returned count is 0, the number of completed cycles, not 0 + 1. -/
theorem countStages_first_read_stops_cex :
    countStages (fun _ => 0) 1 0 1 0 (19/20) (9/20) (1/20) 100 =
      ⟨0, [((19:ℚ)/20, (19:ℚ)/20), (0, 19/20), (0, 0)]⟩ ∧ (0:ℕ) ≠ 0 + 1 := by
  constructor
  · have h : ((fun _ : ℚ => (0:ℚ)) ((19:ℚ)/20)) < 1/20 := by norm_num
    simp only [countStages]
    rw [show (100:ℕ) = 99 + 1 from rfl,
      mtLoop_stop_zero (fun _ => 0) 1 0 1 0 (xIntersect 1 0 1 0 (9/20)) (1/20) h 99]
  · omega

/-- C2: at a pinched input whose staircase never reaches x_W, the loop
exhausts the hard-coded cap of 100 iterations and the computation
returns the bare capped count 100 - the count field is everything it
reports, and a count equal to the cap arises exactly in this
non-convergent situation. -/
theorem countStages_cap_reached_eval :
    (countStages id 1 (-1/500) 1 (-1/500) (19/20) (9/20) (1/20) 100).count = 100 := by
  show (mtLoop id 1 (-1/500) 1 (-1/500)
    (xIntersect 1 (-1/500) 1 (-1/500) (9/20)) (1/20) 100 (19/20)).1 = 100
  rw [pinch_xsplit]
  exact mtLoop_count_of_no_stop id 1 (-1/500) 1 (-1/500) (9/20) (1/20) 100 (19/20)
    pinch_no_stop

/-- C4 (amended): under the spec's below-the-curve hypotheses the run still
terminates with a count of at most maxStages, and it stops strictly before
the cap exactly when some equilibrium read within the cap falls below x_W;
the hypotheses themselves guarantee neither that, nor a count of at
least 1. -/
theorem countStages_below_curve_bounded (f g : ℚ → ℚ) (kR bR kS bS xD xF xW : ℚ)
    (maxStages : ℕ) (hbc : BelowCurveInputs f g kR bR kS bS xD xF xW) :
    (countStages g kR bR kS bS xD xF xW maxStages).count ≤ maxStages ∧
    ((countStages g kR bR kS bS xD xF xW maxStages).count < maxStages ↔
      ∃ n < maxStages,
        g (yseq g kR bR kS bS (xIntersect kR bR kS bS xF) xD n) < xW) :=
  ⟨mtLoop_count_le g kR bR kS bS (xIntersect kR bR kS bS xF) xW maxStages xD,
    mtLoop_count_lt_iff g kR bR kS bS (xIntersect kR bR kS bS xF) xW maxStages xD⟩

/-- C4 counterexample: two inputs satisfying all the claim's hypotheses,
one (operating lines 1/500 below the diagonal curve) on which the loop
runs to the full cap of 100, and one (curve reaching 0.96 at x = 0.05)
on which the count is 0. -/
theorem countStages_below_curve_cex :
    (BelowCurveInputs id id 1 (-1/500) 1 (-1/500) (19/20) (9/20) (1/20) ∧
      ¬ (countStages id 1 (-1/500) 1 (-1/500) (19/20) (9/20) (1/20) 100).count < 100) ∧
    (BelowCurveInputs cexF cexG (53/100) (44/100) (9/10) 0 (19/20) (9/20) (1/20) ∧
      ¬ 1 ≤ (countStages cexG (53/100) (44/100) (9/10) 0 (19/20) (9/20) (1/20) 100).count) := by
  constructor
  · constructor
    · refine ⟨strictMono_id, fun x => rfl, by norm_num, by norm_num, by norm_num,
        by norm_num, ?_⟩
      intro x h1 h2
      constructor <;> (simp only [lineF, id_eq]; linarith)
    · have hc : (countStages id 1 (-1/500) 1 (-1/500) (19/20) (9/20) (1/20) 100).count
          = 100 := by
        show (mtLoop id 1 (-1/500) 1 (-1/500)
          (xIntersect 1 (-1/500) 1 (-1/500) (9/20)) (1/20) 100 (19/20)).1 = 100
        rw [pinch_xsplit]
        exact mtLoop_count_of_no_stop id 1 (-1/500) 1 (-1/500) (9/20) (1/20) 100 (19/20)
          pinch_no_stop
      omega
  · constructor
    · exact ⟨cexF_strictMono, cexG_cexF, by norm_num, by norm_num, by norm_num,
        by norm_num, cex_lines_below⟩
    · have hstop : cexG (yseq cexG (53/100) (44/100) (9/10) 0
          (xIntersect (53/100) (44/100) (9/10) 0 (9/20)) (19/20) 0) < 1/20 := by
        simpa [yseq] using cexG_at_xD
      have hc := (mtLoop_stop cexG (53/100) (44/100) (9/10) 0
        (xIntersect (53/100) (44/100) (9/10) 0 (9/20)) (1/20) 0 (19/20)
        (show (0:ℕ) < 100 by norm_num)
        (fun i hi => absurd hi (Nat.not_lt_zero i)) hstop).1
      have hc' : (countStages cexG (53/100) (44/100) (9/10) 0
          (19/20) (9/20) (1/20) 100).count = 0 := hc
      omega

/-- C4 witness: the amended theorem applied to the first counterexample
input, whose hypotheses are all satisfied concretely. -/
theorem countStages_below_curve_bounded_witness :
    BelowCurveInputs id id 1 (-1/500) 1 (-1/500) (19/20) (9/20) (1/20) ∧
    ((countStages id 1 (-1/500) 1 (-1/500) (19/20) (9/20) (1/20) 100).count ≤ 100 ∧
      ((countStages id 1 (-1/500) 1 (-1/500) (19/20) (9/20) (1/20) 100).count < 100 ↔
        ∃ n < 100, id (yseq id 1 (-1/500) 1 (-1/500)
          (xIntersect 1 (-1/500) 1 (-1/500) (9/20)) (19/20) n) < (1/20:ℚ))) := by
  have hbc : BelowCurveInputs id id 1 (-1/500) 1 (-1/500) (19/20) (9/20) (1/20) := by
    refine ⟨strictMono_id, fun x => rfl, by norm_num, by norm_num, by norm_num,
      by norm_num, ?_⟩
    intro x h1 h2
    constructor <;> (simp only [lineF, id_eq]; linarith)
  exact ⟨hbc, countStages_below_curve_bounded id id 1 (-1/500) 1 (-1/500) (19/20) (9/20)
    (1/20) 100 hbc⟩

/-- C5 (amended): the vertex sequence always starts at (x_D, x_D); whenever
the run terminates through the "x_next < x_W" check (equivalently, the
returned count is below the cap) the last vertex is a diagonal point
(z, z) with z < x_W, hence with x-coordinate at most x_W. -/
theorem countStages_head_and_convergent_last (g : ℚ → ℚ) (kR bR kS bS xD xF xW : ℚ)
    (maxStages : ℕ) :
    (countStages g kR bR kS bS xD xF xW maxStages).steps.head? = some (xD, xD) ∧
    ((countStages g kR bR kS bS xD xF xW maxStages).count < maxStages →
      ∃ z, z < xW ∧
        (countStages g kR bR kS bS xD xF xW maxStages).steps.getLast? = some (z, z)) := by
  constructor
  · rfl
  · intro hlt
    have hlt' : (mtLoop g kR bR kS bS (xIntersect kR bR kS bS xF) xW maxStages xD).1
        < maxStages := hlt
    obtain ⟨n, hn, hPn⟩ :=
      (mtLoop_count_lt_iff g kR bR kS bS (xIntersect kR bR kS bS xF) xW maxStages xD).1 hlt'
    have hex : ∃ m, g (yseq g kR bR kS bS (xIntersect kR bR kS bS xF) xD m) < xW := ⟨n, hPn⟩
    obtain ⟨-, p, hp⟩ := mtLoop_stop g kR bR kS bS (xIntersect kR bR kS bS xF) xW
      (Nat.find hex) xD (Nat.lt_of_le_of_lt (Nat.find_min' hex hPn) hn)
      (fun i hi => Nat.find_min hex hi) (Nat.find_spec hex)
    refine ⟨g (yseq g kR bR kS bS (xIntersect kR bR kS bS xF) xD (Nat.find hex)),
      Nat.find_spec hex, ?_⟩
    show ((xD, xD) ::
      (mtLoop g kR bR kS bS (xIntersect kR bR kS bS xF) xW maxStages xD).2).getLast? = _
    rw [hp, getLast?_cons_append_pair]

/-- C5 witness: a convergent concrete run, whose first read already lands
below x_W, giving count 0 and a final diagonal vertex. -/
theorem countStages_head_and_convergent_last_witness :
    (countStages (fun _ => 1/100) 1 0 1 0 (19/20) (9/20) (1/20) 100).count < 100 ∧
    ∃ z, z < (1/20:ℚ) ∧
      (countStages (fun _ => 1/100) 1 0 1 0 (19/20) (9/20) (1/20) 100).steps.getLast? =
        some (z, z) := by
  have hstop : (fun _ : ℚ => (1:ℚ)/100)
      (yseq (fun _ => 1/100) 1 0 1 0 (xIntersect 1 0 1 0 (9/20)) (19/20) 0) < 1/20 := by
    norm_num
  have hc := (mtLoop_stop (fun _ => 1/100) 1 0 1 0 (xIntersect 1 0 1 0 (9/20)) (1/20)
    0 (19/20) (show (0:ℕ) < 100 by norm_num)
    (fun i hi => absurd hi (Nat.not_lt_zero i)) hstop).1
  have hlt : (countStages (fun _ => 1/100) 1 0 1 0 (19/20) (9/20) (1/20) 100).count < 100 := by
    have hc' : (countStages (fun _ => 1/100) 1 0 1 0 (19/20) (9/20) (1/20) 100).count = 0 := hc
    omega
  exact ⟨hlt, (countStages_head_and_convergent_last (fun _ => 1/100) 1 0 1 0
    (19/20) (9/20) (1/20) 100).2 hlt⟩

/-- C5 counterexample: at the pinched non-convergent input the run's last
vertex is (94/125, 3/4), whose x-coordinate 94/125 is far above
x_W = 1/20, refuting the unconditional claim that every run ends at or
below x_W. -/
theorem countStages_nonconvergent_last_cex :
    (countStages id 1 (-1/500) 1 (-1/500) (19/20) (9/20) (1/20) 100).steps.getLast? =
      some ((94:ℚ)/125, (3:ℚ)/4) ∧ ¬ ((94:ℚ)/125 ≤ 1/20) := by
  constructor
  · have h := countStages_getLast_exhaust id 1 (-1/500) 1 (-1/500) (1/20) (19/20) (9/20)
      100 (by norm_num) (fun i hi => by rw [pinch_xsplit]; exact pinch_no_stop i hi)
    rw [pinch_xsplit] at h
    have e99 : id (yseq id 1 (-1/500) 1 (-1/500) (9/20) (19/20) (100 - 1)) = (94:ℚ)/125 := by
      rw [id_eq, show (100 - 1 : ℕ) = 99 from rfl, pinch_yseq]
      norm_num
    have e100 : yseq id 1 (-1/500) 1 (-1/500) (9/20) (19/20) 100 = (3:ℚ)/4 := by
      rw [pinch_yseq]
      norm_num
    rw [e99, e100] at h
    exact h
  · norm_num

/-- C6: the operating-line split abscissa is (b_strip - b_rect) divided by
(k_rect - k_strip) whenever the two slopes differ, and falls back to the
feed composition x_F when they are equal. -/
theorem xIntersect_formula (kR bR kS bS xF : ℚ) :
    (kR ≠ kS → xIntersect kR bR kS bS xF = (bS - bR) / (kR - kS)) ∧
    (kR = kS → xIntersect kR bR kS bS xF = xF) := by
  constructor <;> intro h <;> simp [xIntersect, h]

/-- C6 witness: both branches of the split-abscissa formula evaluated at
concrete slopes and intercepts. -/
theorem xIntersect_formula_witness :
    xIntersect 1 5 2 7 (1/2) = ((7:ℚ) - 5) / (1 - 2) ∧
    xIntersect 1 5 1 7 (1/2) = (1/2 : ℚ) :=
  ⟨(xIntersect_formula 1 5 2 7 (1/2)).1 (by norm_num),
    (xIntersect_formula 1 5 1 7 (1/2)).2 rfl⟩

/-- C7: the stepping loop is deterministic - two runs of the loop relation
from the same inputs and fuel produce the same count and the same vertex
list; the loop's only state is the explicit fuel and vapor composition. -/
theorem mtRun_deterministic (g : ℚ → ℚ) (kR bR kS bS xsplit xW : ℚ) (fuel : ℕ) (y : ℚ)
    (r₁ r₂ : ℕ × List (ℚ × ℚ)) (h₁ : MTRun g kR bR kS bS xsplit xW fuel y r₁)
    (h₂ : MTRun g kR bR kS bS xsplit xW fuel y r₂) : r₁ = r₂ := by
  induction h₁ generalizing r₂ with
  | exhaust y => cases h₂; rfl
  | stop fuel y h =>
    cases h₂ with
    | stop => rfl
    | cycle _ _ h' => exact absurd h h'
  | cycle fuel y h c l hrec ih =>
    cases h₂ with
    | stop _ _ h' => exact absurd h' h
    | cycle _ _ _ c' l' hrec' =>
      have heq := ih (c', l') hrec'
      cases heq
      rfl

/-- C7 witness: two derivations of the same concrete one-step run, both
mapped by determinism to the same result. -/
theorem mtRun_deterministic_witness :
    MTRun (fun _ => 0) 1 0 1 0 (9/20) (1/20) 1 (19/20)
      ((0:ℕ), [((0:ℚ), (19:ℚ)/20), ((0:ℚ), (0:ℚ))]) ∧
    ((0:ℕ), [((0:ℚ), (19:ℚ)/20), ((0:ℚ), (0:ℚ))]) =
      ((0:ℕ), [((0:ℚ), (19:ℚ)/20), ((0:ℚ), (0:ℚ))]) := by
  have h : MTRun (fun _ => 0) 1 0 1 0 (9/20) (1/20) 1 (19/20)
      ((0:ℕ), [((0:ℚ), (19:ℚ)/20), ((0:ℚ), (0:ℚ))]) :=
    MTRun.stop 0 (19/20) (by norm_num)
  exact ⟨h, mtRun_deterministic (fun _ => 0) 1 0 1 0 (9/20) (1/20) 1 (19/20) _ _ h h⟩

/-- C9 (amended): the vertex sequence is the start vertex (x_D, x_D)
followed by an alternation of horizontal vertices (keeping the
predecessor's y) and vertical or diagonal vertices (keeping the
predecessor's x); consecutive vertices agree in the designated
coordinate but may also agree in the other. -/
theorem countStages_staircase_alternates (g : ℚ → ℚ) (kR bR kS bS xD xF xW : ℚ)
    (maxStages : ℕ) :
    ∃ t, (countStages g kR bR kS bS xD xF xW maxStages).steps = (xD, xD) :: t ∧
      Alt true (xD, xD) t :=
  ⟨(mtLoop g kR bR kS bS (xIntersect kR bR kS bS xF) xW maxStages xD).2, rfl,
    mtLoop_alt g kR bR kS bS (xIntersect kR bR kS bS xF) xW maxStages xD (xD, xD) rfl⟩

/-- C9 counterexample: a degenerate run (equilibrium curve equal to the
diagonal, operating lines equal to the diagonal) whose first two vertices
are identical, agreeing in both coordinates, not in exactly one. -/
theorem countStages_duplicate_vertex_cex :
    (countStages id 1 0 1 0 (1/2) (1/2) (1/4) 100).steps.take 2 =
      [((1:ℚ)/2, (1:ℚ)/2), ((1:ℚ)/2, (1:ℚ)/2)] ∧
    ¬ sharesExactlyOne ((1:ℚ)/2, (1:ℚ)/2) ((1:ℚ)/2, (1:ℚ)/2) := by
  constructor
  · have h : ¬ (id ((1:ℚ)/2) < (1:ℚ)/4) := by norm_num
    show (((1:ℚ)/2, (1:ℚ)/2) ::
      (mtLoop id 1 0 1 0 (xIntersect 1 0 1 0 (1/2)) (1/4) 100 (1/2)).2).take 2 = _
    rw [show (100:ℕ) = 99 + 1 from rfl,
      mtLoop_cycle_unfold id 1 0 1 0 (xIntersect 1 0 1 0 (1/2)) (1/4) h 99]
    simp
  · simp [sharesExactlyOne]

lemma vsLe_trans : ∀ a b c : IPoint, decide (a.Vs ≤ b.Vs) = true →
    decide (b.Vs ≤ c.Vs) = true → decide (a.Vs ≤ c.Vs) = true := by
  intro a b c h1 h2
  simp only [decide_eq_true_eq] at h1 h2 ⊢
  exact le_trans h1 h2

lemma vsLe_total : ∀ a b : IPoint,
    (decide (a.Vs ≤ b.Vs) || decide (b.Vs ≤ a.Vs)) = true := by
  intro a b
  simp [le_total]

lemma mergeSortVs_pairwise (l : List IPoint) :
    List.Pairwise (fun a b : IPoint => a.Vs ≤ b.Vs)
      (l.mergeSort fun a b => decide (a.Vs ≤ b.Vs)) := by
  have h := @List.sorted_mergeSort IPoint (fun a b => decide (a.Vs ≤ b.Vs))
    vsLe_trans vsLe_total l
  exact h.imp (fun hab => by simpa using hab)

lemma headI_mem_self (l : List IPoint) (hne : l ≠ []) : l.headI ∈ l := by
  cases l with
  | nil => exact absurd rfl hne
  | cons a t => exact List.mem_cons_self a t

lemma pairwise_headI_le (l : List IPoint) (hne : l ≠ [])
    (hs : List.Pairwise (fun a b : IPoint => a.Vs ≤ b.Vs) l) :
    ∀ p ∈ l, l.headI.Vs ≤ p.Vs := by
  cases l with
  | nil => exact absurd rfl hne
  | cons a t =>
    intro p hp
    rcases List.mem_cons.mp hp with rfl | hp'
    · exact le_refl _
    · exact (List.pairwise_cons.mp hs).1 p hp'

lemma pairwise_le_getLastI (l : List IPoint) (hne : l ≠ [])
    (hs : List.Pairwise (fun a b : IPoint => a.Vs ≤ b.Vs) l) :
    l.getLastI ∈ l ∧ ∀ p ∈ l, p.Vs ≤ l.getLastI.Vs := by
  obtain ⟨a, ha⟩ : ∃ a, l.getLast? = some a := by
    cases h : l.getLast? with
    | none => exact absurd (List.getLast?_eq_none_iff.mp h) hne
    | some a => exact ⟨a, rfl⟩
  have hgi : l.getLastI = a := by rw [List.getLastI_eq_getLast?, ha]
  obtain ⟨ys, rfl⟩ := List.getLast?_eq_some_iff.mp ha
  have hsplit := List.pairwise_append.mp hs
  constructor
  · rw [hgi]; simp
  · intro p hp
    rw [hgi]
    rcases List.mem_append.mp hp with hp' | hp'
    · exact hsplit.2.2 p hp' a (by simp)
    · simp at hp'
      rw [hp']

lemma selectEnvelope_char (weeping mist flood : ℚ → ℚ) (lsMin lsMax : ℚ)
    (pts : List IPoint)
    (h2 : 2 ≤ (pts.filter fun p =>
      decide (validIntersection weeping mist flood lsMin lsMax p)).length) :
    ∃ l : List IPoint,
      l.Perm (pts.filter fun p =>
        decide (validIntersection weeping mist flood lsMin lsMax p)) ∧
      List.Pairwise (fun a b : IPoint => a.Vs ≤ b.Vs) l ∧ l ≠ [] ∧
      (selectEnvelope weeping mist flood lsMin lsMax pts).VsMinVal = l.headI.Vs ∧
      (selectEnvelope weeping mist flood lsMin lsMax pts).VsMaxVal = l.getLastI.Vs ∧
      (selectEnvelope weeping mist flood lsMin lsMax pts).Eop =
        (if l.headI.Vs > 0 then l.getLastI.Vs / l.headI.Vs else 0) := by
  have hperm1 := List.mergeSort_perm pts (fun a b => decide (a.Vs ≤ b.Vs))
  have hpermf := List.Perm.filter
    (fun p => decide (validIntersection weeping mist flood lsMin lsMax p)) hperm1
  have h2' : 2 ≤ ((pts.mergeSort fun a b => decide (a.Vs ≤ b.Vs)).filter fun p =>
      decide (validIntersection weeping mist flood lsMin lsMax p)).length := by
    rw [hpermf.length_eq]
    exact h2
  have hperm2 := List.mergeSort_perm
    ((pts.mergeSort fun a b => decide (a.Vs ≤ b.Vs)).filter fun p =>
      decide (validIntersection weeping mist flood lsMin lsMax p))
    (fun a b => decide (a.Vs ≤ b.Vs))
  refine ⟨(((pts.mergeSort fun a b => decide (a.Vs ≤ b.Vs)).filter fun p =>
      decide (validIntersection weeping mist flood lsMin lsMax p)).mergeSort
        fun a b => decide (a.Vs ≤ b.Vs)),
    hperm2.trans hpermf, mergeSortVs_pairwise _, ?_, ?_, ?_, ?_⟩
  · apply List.ne_nil_of_length_pos
    rw [hperm2.length_eq]
    omega
  · simp only [selectEnvelope]
    rw [if_pos h2']
  · simp only [selectEnvelope]
    rw [if_pos h2']
  · simp only [selectEnvelope]
    rw [if_pos h2']

/-- C8: with at least two valid intersections (and all candidate vapor
rates above the tolerance, as the collection stage guarantees), the
reported envelope limits are the least and the greatest vapor rate among
the valid intersections, and the reported operating flexibility is their
ratio maximum over minimum. -/
theorem selectEnvelope_extremes (weeping mist flood : ℚ → ℚ) (lsMin lsMax : ℚ)
    (pts : List IPoint)
    (hpos : ∀ p ∈ pts, hydroEps < p.Vs)
    (h2 : 2 ≤ (pts.filter fun p =>
      decide (validIntersection weeping mist flood lsMin lsMax p)).length) :
    (∃ p ∈ pts, validIntersection weeping mist flood lsMin lsMax p ∧
      (selectEnvelope weeping mist flood lsMin lsMax pts).VsMinVal = p.Vs) ∧
    (∀ p ∈ pts, validIntersection weeping mist flood lsMin lsMax p →
      (selectEnvelope weeping mist flood lsMin lsMax pts).VsMinVal ≤ p.Vs) ∧
    (∃ p ∈ pts, validIntersection weeping mist flood lsMin lsMax p ∧
      (selectEnvelope weeping mist flood lsMin lsMax pts).VsMaxVal = p.Vs) ∧
    (∀ p ∈ pts, validIntersection weeping mist flood lsMin lsMax p →
      p.Vs ≤ (selectEnvelope weeping mist flood lsMin lsMax pts).VsMaxVal) ∧
    (selectEnvelope weeping mist flood lsMin lsMax pts).Eop =
      (selectEnvelope weeping mist flood lsMin lsMax pts).VsMaxVal /
        (selectEnvelope weeping mist flood lsMin lsMax pts).VsMinVal := by
  obtain ⟨l, hperm, hsort, hne, hmin, hmax, heop⟩ :=
    selectEnvelope_char weeping mist flood lsMin lsMax pts h2
  have hmemiff : ∀ p : IPoint,
      p ∈ l ↔ p ∈ pts ∧ validIntersection weeping mist flood lsMin lsMax p := by
    intro p
    rw [hperm.mem_iff, List.mem_filter]
    simp
  have hheadmem := (hmemiff l.headI).mp (headI_mem_self l hne)
  have hlast := pairwise_le_getLastI l hne hsort
  have hlastmem := (hmemiff l.getLastI).mp hlast.1
  refine ⟨⟨l.headI, hheadmem.1, hheadmem.2, hmin⟩, ?_,
    ⟨l.getLastI, hlastmem.1, hlastmem.2, hmax⟩, ?_, ?_⟩
  · intro p hp hvp
    rw [hmin]
    exact pairwise_headI_le l hne hsort p ((hmemiff p).mpr ⟨hp, hvp⟩)
  · intro p hp hvp
    rw [hmax]
    exact hlast.2 p ((hmemiff p).mpr ⟨hp, hvp⟩)
  · have hposhead : l.headI.Vs > 0 := by
      have h1 := hpos l.headI hheadmem.1
      have h2 : (0:ℚ) < hydroEps := by norm_num [hydroEps]
      linarith
    rw [heop, hmin, hmax, if_pos hposhead]

/-- C8 witness: two concrete valid candidate points, with permissive
boundary curves, whose vapor rates 1 and 2 become the reported envelope
limits with flexibility 2 / 1. -/
theorem selectEnvelope_extremes_witness :
    (∀ p ∈ [(⟨1, 1, "A"⟩ : IPoint), ⟨2, 2, "B"⟩], hydroEps < p.Vs) ∧
    (2 ≤ ([(⟨1, 1, "A"⟩ : IPoint), ⟨2, 2, "B"⟩].filter fun p =>
      decide (validIntersection (fun _ => 0) (fun _ => 10) (fun _ => 10) 0 10 p)).length) ∧
    ((∃ p ∈ [(⟨1, 1, "A"⟩ : IPoint), ⟨2, 2, "B"⟩],
        validIntersection (fun _ => 0) (fun _ => 10) (fun _ => 10) 0 10 p ∧
        (selectEnvelope (fun _ => 0) (fun _ => 10) (fun _ => 10) 0 10
          [⟨1, 1, "A"⟩, ⟨2, 2, "B"⟩]).VsMinVal = p.Vs) ∧
      (∀ p ∈ [(⟨1, 1, "A"⟩ : IPoint), ⟨2, 2, "B"⟩],
        validIntersection (fun _ => 0) (fun _ => 10) (fun _ => 10) 0 10 p →
        (selectEnvelope (fun _ => 0) (fun _ => 10) (fun _ => 10) 0 10
          [⟨1, 1, "A"⟩, ⟨2, 2, "B"⟩]).VsMinVal ≤ p.Vs) ∧
      (∃ p ∈ [(⟨1, 1, "A"⟩ : IPoint), ⟨2, 2, "B"⟩],
        validIntersection (fun _ => 0) (fun _ => 10) (fun _ => 10) 0 10 p ∧
        (selectEnvelope (fun _ => 0) (fun _ => 10) (fun _ => 10) 0 10
          [⟨1, 1, "A"⟩, ⟨2, 2, "B"⟩]).VsMaxVal = p.Vs) ∧
      (∀ p ∈ [(⟨1, 1, "A"⟩ : IPoint), ⟨2, 2, "B"⟩],
        validIntersection (fun _ => 0) (fun _ => 10) (fun _ => 10) 0 10 p →
        p.Vs ≤ (selectEnvelope (fun _ => 0) (fun _ => 10) (fun _ => 10) 0 10
          [⟨1, 1, "A"⟩, ⟨2, 2, "B"⟩]).VsMaxVal) ∧
      (selectEnvelope (fun _ => 0) (fun _ => 10) (fun _ => 10) 0 10
          [⟨1, 1, "A"⟩, ⟨2, 2, "B"⟩]).Eop =
        (selectEnvelope (fun _ => 0) (fun _ => 10) (fun _ => 10) 0 10
          [⟨1, 1, "A"⟩, ⟨2, 2, "B"⟩]).VsMaxVal /
          (selectEnvelope (fun _ => 0) (fun _ => 10) (fun _ => 10) 0 10
            [⟨1, 1, "A"⟩, ⟨2, 2, "B"⟩]).VsMinVal) := by
  have hpos : ∀ p ∈ [(⟨1, 1, "A"⟩ : IPoint), ⟨2, 2, "B"⟩], hydroEps < p.Vs := by
    intro p hp
    rcases List.mem_cons.mp hp with rfl | hp'
    · norm_num [hydroEps]
    · simp at hp'
      rw [hp']
      norm_num [hydroEps]
  have hva : validIntersection (fun _ => 0) (fun _ => 10) (fun _ => 10) 0 10
      (⟨1, 1, "A"⟩ : IPoint) := by
    norm_num [validIntersection, hydroEps]
  have hvb : validIntersection (fun _ => 0) (fun _ => 10) (fun _ => 10) 0 10
      (⟨2, 2, "B"⟩ : IPoint) := by
    norm_num [validIntersection, hydroEps]
  have h2 : 2 ≤ ([(⟨1, 1, "A"⟩ : IPoint), ⟨2, 2, "B"⟩].filter fun p =>
      decide (validIntersection (fun _ => 0) (fun _ => 10) (fun _ => 10) 0 10 p)).length := by
    rw [List.filter_cons, List.filter_cons]
    rw [if_pos (by simpa using hva), if_pos (by simpa using hvb)]
    simp
  exact ⟨hpos, h2, selectEnvelope_extremes (fun _ => 0) (fun _ => 10) (fun _ => 10) 0 10
    [⟨1, 1, "A"⟩, ⟨2, 2, "B"⟩] hpos h2⟩

/-- C10: with fewer than two valid intersections no error occurs, the
reported minimum and maximum vapor rates both stay 0, and the operating
flexibility is reported as 0 because the ratio is only computed for a
positive minimum. -/
theorem selectEnvelope_defaults (weeping mist flood : ℚ → ℚ) (lsMin lsMax : ℚ)
    (pts : List IPoint)
    (hlt : (pts.filter fun p =>
      decide (validIntersection weeping mist flood lsMin lsMax p)).length < 2) :
    (selectEnvelope weeping mist flood lsMin lsMax pts).VsMinVal = 0 ∧
    (selectEnvelope weeping mist flood lsMin lsMax pts).VsMaxVal = 0 ∧
    (selectEnvelope weeping mist flood lsMin lsMax pts).Eop = 0 := by
  have hperm1 := List.mergeSort_perm pts (fun a b => decide (a.Vs ≤ b.Vs))
  have hpermf := List.Perm.filter
    (fun p => decide (validIntersection weeping mist flood lsMin lsMax p)) hperm1
  have hlt' : ¬ 2 ≤ ((pts.mergeSort fun a b => decide (a.Vs ≤ b.Vs)).filter fun p =>
      decide (validIntersection weeping mist flood lsMin lsMax p)).length := by
    rw [hpermf.length_eq]
    omega
  refine ⟨?_, ?_, ?_⟩ <;> (simp only [selectEnvelope]; rw [if_neg hlt']) <;> norm_num

/-- C10 witness: the empty candidate list yields the all-zero outcome. -/
theorem selectEnvelope_defaults_witness :
    (([] : List IPoint).filter fun p =>
      decide (validIntersection (fun _ => 0) (fun _ => 0) (fun _ => 0) 0 0 p)).length < 2 ∧
    ((selectEnvelope (fun _ => 0) (fun _ => 0) (fun _ => 0) 0 0 []).VsMinVal = 0 ∧
      (selectEnvelope (fun _ => 0) (fun _ => 0) (fun _ => 0) 0 0 []).VsMaxVal = 0 ∧
      (selectEnvelope (fun _ => 0) (fun _ => 0) (fun _ => 0) 0 0 []).Eop = 0) := by
  have h : (([] : List IPoint).filter fun p =>
      decide (validIntersection (fun _ => 0) (fun _ => 0) (fun _ => 0) 0 0 p)).length < 2 := by
    simp
  exact ⟨h, selectEnvelope_defaults (fun _ => 0) (fun _ => 0) (fun _ => 0) 0 0 [] h⟩
